import Mathlib

/-!
Verification development for the HelioGraph Document Registry.

The registry's relational schema is embedded from the SQL migrations under
`src/services/document_registry/migrations/` and `src/unnamed/part_010`,
`src/unnamed/part_011` (soft delete and the `content_hash` unique
constraint), and `src/unnamed/part_000` (the SQS redrive policy with
`maxReceiveCount 3`).  The registry's application layer (deduplication
engine, lifecycle state machine, registration/event service) is not part of
the source tree, so those operations are modelled from the specification's
own words; each such definition is marked `Modelled from the spec:`.

States are lists of records; timestamps are naturals; machine text is
`List Char` wrapped in `String` at the boundary.
-/

namespace Heliograph

/-- Document lifecycle status, from the SQL enum
`CREATE TYPE document_status AS ENUM ('registered','processing','indexed','failed')`
in `001_create_registry_documents.sql`. -/
inductive DocStatus where
  | registered
  | processing
  | indexed
  | failed
deriving DecidableEq, Repr

/-- Modelled from the spec: the four allowed lifecycle transitions
(registered→processing, processing→indexed, processing→failed,
failed→processing); every other pair is invalid. -/
def allowedTransition : DocStatus → DocStatus → Bool
  | DocStatus.registered, DocStatus.processing => true
  | DocStatus.processing, DocStatus.indexed => true
  | DocStatus.processing, DocStatus.failed => true
  | DocStatus.failed, DocStatus.processing => true
  | _, _ => false

/-- A row of `registry_documents` (001_create_registry_documents.sql plus the
`deleted_at` column added by `src/unnamed/part_011`).  Timestamps are naturals;
`document_id` is an opaque natural; JSONB maps are association lists. -/
structure DocRecord where
  document_id : Nat
  doi : Option String
  content_hash : String
  title : String
  title_normalized : String
  year : Option Int
  source_metadata : List (String × String)
  status : DocStatus
  error_message : Option String
  artifact_pointers : List (String × String)
  created_at : Nat
  updated_at : Nat
  last_processed_at : Option Nat
  deleted_at : Option Nat
deriving DecidableEq, Repr

/-- A row of `document_provenance` (`src/unnamed/part_010`). -/
structure ProvenanceEntry where
  document_id : Nat
  source : String
  source_identifier : Option String
  user_id : String
  metadata_snapshot : List (String × String)
  created_at : Nat
deriving DecidableEq, Repr

/-- A row of `document_state_audit` (`src/unnamed/part_000`, migration
003_create_state_audit_log). -/
structure AuditEntry where
  document_id : Nat
  previous_state : Option DocStatus
  new_state : DocStatus
  worker_id : Option String
  error_message : Option String
  created_at : Nat
deriving DecidableEq, Repr

/-- Modelled from the spec: a pending `DocumentRegistered` outbox event row;
`receive_count` tracks delivery attempts for the SQS redrive policy of
`src/unnamed/part_000`. -/
structure OutboxEvent where
  document_id : Nat
  content_hash : String
  doi : Option String
  title : String
  user_id : String
  created_at : Nat
  receive_count : Nat
deriving DecidableEq, Repr

/-- The metadata store: the registry tables plus the outbox queue and its
dead-letter queue (`document-registered` / `document-registered-dlq` in
`src/unnamed/part_000`).  `next_id` generates fresh document ids. -/
structure Store where
  documents : List DocRecord
  provenance : List ProvenanceEntry
  audit : List AuditEntry
  outbox : List OutboxEvent
  dead_letter : List OutboxEvent
  next_id : Nat
deriving DecidableEq, Repr

/-! ## Normalization (modelled from the spec, §4.2) -/

/-- Character class kept by title normalization: letters, digits, space. -/
def keepChar (c : Char) : Bool :=
  c.isAlphanum || c == ' '

/-- Collapse runs of spaces to a single space. -/
def collapseSpaces : List Char → List Char
  | [] => []
  | ' ' :: rest =>
      match collapseSpaces rest with
      | ' ' :: tail => ' ' :: tail
      | tail => ' ' :: tail
  | c :: rest => c :: collapseSpaces rest

/-- Drop leading spaces. -/
def trimLead : List Char → List Char
  | ' ' :: rest => trimLead rest
  | l => l

/-- Drop trailing spaces. -/
def trimTail (l : List Char) : List Char :=
  (trimLead l.reverse).reverse

/-- Modelled from the spec: title normalization — lowercase, strip
punctuation, collapse runs of whitespace to a single space, trim. -/
def normalizeTitle (s : String) : String :=
  String.mk (trimTail (trimLead (collapseSpaces
    ((s.data.map (fun c => if c.isWhitespace then ' ' else c.toLower)).filter keepChar))))

/-- If `p` is a leading run of `s`, return the remainder. -/
def dropLead : List Char → List Char → Option (List Char)
  | [], s => some s
  | _, [] => none
  | p :: ps, c :: cs => if p = c then dropLead ps cs else none

/-- Strip the first matching prefix from the list of known DOI URL/scheme
prefixes. -/
def stripDoiHost (l : List Char) : List Char :=
  match dropLead "https://doi.org/".data l with
  | some rest => rest
  | none =>
      match dropLead "http://doi.org/".data l with
      | some rest => rest
      | none =>
          match dropLead "doi.org/".data l with
          | some rest => rest
          | none =>
              match dropLead "doi:".data l with
              | some rest => rest
              | none => l

/-- Modelled from the spec: DOI normalization — lowercase, strip leading
protocol/host prefixes (a `doi.org` URL prefix or `doi:` scheme), trim. -/
def normalizeDoi (s : String) : String :=
  String.mk (stripDoiHost (trimTail (trimLead (s.data.map Char.toLower))))

/-! ## Request validation (modelled from the spec, §4.2 rejection path, §6) -/

/-- Hexadecimal digit test. -/
def isHexDigit (c : Char) : Bool :=
  c.isDigit || ('a' ≤ c && c ≤ 'f') || ('A' ≤ c && c ≤ 'F')

/-- Modelled from the spec: a well-formed `content_hash` is fixed-length hex —
64 hex characters (SHA-256, `VARCHAR(64)` in the schema). -/
def validContentHash (h : String) : Bool :=
  h.data.length == 64 && h.data.all isHexDigit

/-- Modelled from the spec: a well-formed DOI, after normalization, has the
registry prefix form `10.`… and contains a suffix separator `/`. -/
def validDoiFormat (d : String) : Bool :=
  (dropLead "10.".data (normalizeDoi d).data).isSome
    && (normalizeDoi d).data.contains '/'

/-! ## Edit distance and similarity (modelled from the spec, §4.2 rule 4) -/

/-- One inner sweep of the Wagner–Fischer dynamic program: walk the second
string with the previous row, carrying the diagonal and left cells.  The
computed cell is pattern-matched so that evaluation keeps every cell as a
numeral. -/
def levRowGo (x : Char) : List Char → List Nat → Nat → Nat → List Nat
  | [], _, _, _ => []
  | _ :: _, [], _, _ => []
  | y :: bs, up :: ps, diag, left =>
      match min (min (left + 1) (up + 1)) (diag + (if x = y then 0 else 1)) with
      | 0 => 0 :: levRowGo x bs ps up 0
      | c + 1 => (c + 1) :: levRowGo x bs ps up (c + 1)

/-- Build the next dynamic-programming row for source character `x`. -/
def levRow (x : Char) (b : List Char) (prev : List Nat) (i : Nat) : List Nat :=
  i :: levRowGo x b prev.tail (prev.headD 0) i

/-- Iterate the dynamic program over the first string. -/
def levLoop : List Char → List Char → List Nat → Nat → List Nat
  | [], _, row, _ => row
  | x :: xs, b, row, i => levLoop xs b (levRow x b row (i + 1)) (i + 1)

/-- Levenshtein edit distance between two character lists. -/
def levenshtein (a b : List Char) : Nat :=
  (levLoop a b (List.range (b.length + 1)) 0).getLastD 0

/-- Modelled from the spec: the normalized edit-distance similarity score
between two normalized titles, as a rational: `1 - distance / maxLength`,
written as the single fraction `(maxLength - distance) / maxLength` (the
distance never exceeds the longer length), and `1` for two empty strings. -/
def similarity (a b : String) : ℚ :=
  if max a.data.length b.data.length = 0 then 1
  else mkRat (max a.data.length b.data.length - levenshtein a.data b.data)
    (max a.data.length b.data.length)

/-- Modelled from the spec: the fuzzy-match threshold — a score ≥ 0.90 counts
as a match. -/
def fuzzyThreshold : ℚ := mkRat 9 10

/-! ## Deduplication engine (modelled from the spec, §4.2) -/

/-- A registration request, fields from spec §6. -/
structure RegisterRequest where
  doi : Option String
  content_hash : String
  title : String
  subtitle : Option String
  journal : Option String
  year : Option Int
  authors : List String
  source : String
  user_id : String
  source_metadata : List (String × String)
deriving DecidableEq, Repr

/-- The submitted DOI after normalization; `none` when absent or empty. -/
def submittedDoi (req : RegisterRequest) : Option String :=
  match req.doi with
  | none => none
  | some d => if normalizeDoi d = "" then none else some (normalizeDoi d)

/-- Modelled from the spec: match rule 1 — exact normalized-DOI match among
non-deleted records (used only when the submitted DOI is non-empty). -/
def findDoiMatch (nd : String) (docs : List DocRecord) : Option DocRecord :=
  docs.find? (fun r =>
    r.deleted_at.isNone && r.doi.any (fun d => normalizeDoi d == nd))

/-- Modelled from the spec: match rule 2 — exact `content_hash` match among
non-deleted records. -/
def findHashMatch (h : String) (docs : List DocRecord) : Option DocRecord :=
  docs.find? (fun r => r.deleted_at.isNone && r.content_hash == h)

/-- Modelled from the spec: match rule 3 — exact composite match on
(`content_hash`, `title_normalized`, `year`) among non-deleted records. -/
def findCompositeMatch (h tn : String) (y : Option Int) (docs : List DocRecord) :
    Option DocRecord :=
  docs.find? (fun r =>
    r.deleted_at.isNone && r.content_hash == h && r.title_normalized == tn && r.year == y)

/-- Does a record clear the fuzzy threshold against the submitted normalized
title? -/
def clearsThreshold (tn : String) (r : DocRecord) : Bool :=
  decide (fuzzyThreshold ≤ similarity tn r.title_normalized)

/-- Modelled from the spec: the rule-4 candidate pool — existing non-deleted
records with the same `year` whose similarity score clears the threshold. -/
def fuzzyCandidates (tn : String) (y : Int) (docs : List DocRecord) : List DocRecord :=
  docs.filter (fun r =>
    r.deleted_at.isNone && r.year == some y && clearsThreshold tn r)

/-- Modelled from the spec: candidate `c` beats incumbent `b` when it scores
strictly higher, or scores equally and was created strictly earlier. -/
def fuzzyBeats (tn : String) (c b : DocRecord) : Bool :=
  decide (similarity tn b.title_normalized < similarity tn c.title_normalized ∨
    (similarity tn c.title_normalized = similarity tn b.title_normalized ∧
      c.created_at < b.created_at))

/-- Fold the candidate pool keeping the best candidate seen so far. -/
def pickBest (tn : String) : Option DocRecord → List DocRecord → Option DocRecord
  | acc, [] => acc
  | none, c :: rest => pickBest tn (some c) rest
  | some b, c :: rest => pickBest tn (some (if fuzzyBeats tn c b then c else b)) rest

/-- Modelled from the spec: match rule 4 — fuzzy title match among same-year
non-deleted records; the highest-scoring candidate wins, ties broken by
earliest `created_at`.  No candidates when the submission carries no year. -/
def fuzzyMatch (tn : String) (y : Option Int) (docs : List DocRecord) : Option DocRecord :=
  match y with
  | none => none
  | some yv => pickBest tn none (fuzzyCandidates tn yv docs)

/-- Rules 3 then 4, in order. -/
def dedupRule34 (req : RegisterRequest) (docs : List DocRecord) : Option DocRecord :=
  match findCompositeMatch req.content_hash (normalizeTitle req.title) req.year docs with
  | some r => some r
  | none => fuzzyMatch (normalizeTitle req.title) req.year docs

/-- Rules 2, 3, 4, in order. -/
def dedupRule234 (req : RegisterRequest) (docs : List DocRecord) : Option DocRecord :=
  match findHashMatch req.content_hash docs with
  | some r => some r
  | none => dedupRule34 req docs

/-- Modelled from the spec: the deduplication check — the four match rules
evaluated in order, first match wins; rule 1 applies only when the submitted
DOI is non-empty. -/
def dedupCheck (req : RegisterRequest) (docs : List DocRecord) : Option DocRecord :=
  match submittedDoi req with
  | some nd =>
      match findDoiMatch nd docs with
      | some r => some r
      | none => dedupRule234 req docs
  | none => dedupRule234 req docs

/-! ## Store constraints (from the SQL migrations) -/

/-- The constraint `registry_documents_content_hash_unique` added by
`src/unnamed/part_011`: `UNIQUE (content_hash)` over all rows of
`registry_documents` — the constraint text carries no `deleted_at` scope. -/
def contentHashConstraint (docs : List DocRecord) : Prop :=
  docs.Pairwise (fun a b => a.content_hash ≠ b.content_hash)

/-- The spec's wording of the invariant: `content_hash` unique across the
non-deleted records only.  Kept for comparison with `contentHashConstraint`,
the constraint the migration actually declares. -/
def contentHashUniqueNonDeleted (docs : List DocRecord) : Prop :=
  (docs.filter (fun r => r.deleted_at.isNone)).Pairwise
    (fun a b => a.content_hash ≠ b.content_hash)

/-! ## Registration service (modelled from the spec, §4.2 and §4.4) -/

/-- Validation outcome codes for the rejection path (spec §6 taxonomy). -/
inductive RejectReason where
  | INVALID_CONTENT_HASH
  | INVALID_DOI
deriving DecidableEq, Repr

/-- Result of `Register` (spec §6). -/
inductive RegisterResult where
  | queued (document_id : Nat)
  | duplicate (existing_document_id : Nat)
  | rejected (reason : RejectReason)
deriving DecidableEq, Repr

/-- Modelled from the spec: synchronous validation — malformed `content_hash`
or malformed DOI short-circuits before any store access. -/
def registerValidate (req : RegisterRequest) : Option RejectReason :=
  if validContentHash req.content_hash then
    match req.doi with
    | none => none
    | some d => if validDoiFormat d then none else some RejectReason.INVALID_DOI
  else some RejectReason.INVALID_CONTENT_HASH

/-- Modelled from the spec: merge of `source_metadata` — the incoming data is
added under its own keys, never overwriting a key another source already
holds. -/
def mergeSourceMetadata (existing incoming : List (String × String)) :
    List (String × String) :=
  existing ++ incoming.filter (fun kv => !(existing.any (fun e => e.1 == kv.1)))

/-- The `update_updated_at_column` BEFORE UPDATE trigger of
001_create_registry_documents.sql: every row update also stamps `updated_at`
with the current time. -/
def triggerUpdate (now : Nat) (f : DocRecord → DocRecord) (r : DocRecord) : DocRecord :=
  { f r with updated_at := now }

/-- Apply an update function to the row with the given id, through the
`updated_at` trigger. -/
def updateDoc (id : Nat) (now : Nat) (f : DocRecord → DocRecord) :
    List DocRecord → List DocRecord
  | [] => []
  | r :: rest =>
      if r.document_id = id then triggerUpdate now f r :: rest
      else r :: updateDoc id now f rest

/-- The provenance entry appended for a submission (`document_provenance`,
`src/unnamed/part_010`). -/
def provOf (req : RegisterRequest) (docId now : Nat) : ProvenanceEntry :=
  { document_id := docId
    source := req.source
    source_identifier := submittedDoi req
    user_id := req.user_id
    metadata_snapshot := req.source_metadata
    created_at := now }

/-- The `DocumentRegistered` outbox event row for a fresh registration. -/
def eventOf (req : RegisterRequest) (id now : Nat) : OutboxEvent :=
  { document_id := id
    content_hash := req.content_hash
    doi := submittedDoi req
    title := req.title
    user_id := req.user_id
    created_at := now
    receive_count := 0 }

/-- The freshly inserted record on the no-match path: `status = registered`,
normalized fields stored (`registry_documents` defaults). -/
def newRecord (req : RegisterRequest) (id now : Nat) : DocRecord :=
  { document_id := id
    doi := submittedDoi req
    content_hash := req.content_hash
    title := req.title
    title_normalized := normalizeTitle req.title
    year := req.year
    source_metadata := req.source_metadata
    status := DocStatus.registered
    error_message := none
    artifact_pointers := []
    created_at := now
    updated_at := now
    last_processed_at := none
    deleted_at := none }

/-- The duplicate outcome: merge `source_metadata` into the matched record
(through the `updated_at` trigger), append one provenance entry, create no
record and no event. -/
def duplicateOutcome (req : RegisterRequest) (now : Nat) (s : Store) (r : DocRecord) :
    RegisterResult × Store :=
  (RegisterResult.duplicate r.document_id,
   { s with
      documents := updateDoc r.document_id now
        (fun d => { d with
          source_metadata := mergeSourceMetadata d.source_metadata req.source_metadata })
        s.documents
      provenance := s.provenance ++ [provOf req r.document_id now] })

/-- Modelled from the spec: `Register` — validate, run the dedup check, then
either take the duplicate path or atomically insert the record together with
its `DocumentRegistered` outbox event and the initiating provenance entry.
The atomic insert is guarded by the store's `UNIQUE (content_hash)`
constraint (`src/unnamed/part_011`), which covers soft-deleted rows as well;
when the constraint rejects the insert the service falls back to the
read-then-merge path (spec §4.1). -/
def register (req : RegisterRequest) (now : Nat) (s : Store) : RegisterResult × Store :=
  match registerValidate req with
  | some reason => (RegisterResult.rejected reason, s)
  | none =>
      match dedupCheck req s.documents with
      | some r => duplicateOutcome req now s r
      | none =>
          match s.documents.find? (fun d => d.content_hash == req.content_hash) with
          | some r => duplicateOutcome req now s r
          | none =>
              (RegisterResult.queued s.next_id,
               { s with
                  documents := s.documents ++ [newRecord req s.next_id now]
                  provenance := s.provenance ++ [provOf req s.next_id now]
                  outbox := s.outbox ++ [eventOf req s.next_id now]
                  next_id := s.next_id + 1 })

/-! ## Lifecycle state machine (modelled from the spec, §4.3) -/

/-- A state-transition request (spec §6). -/
structure TransitionRequest where
  state : DocStatus
  expected_state : Option DocStatus
  worker_id : String
  error_message : Option String
  artifact_pointers : List (String × String)
deriving DecidableEq, Repr

/-- Result of `TransitionState`: the updated view, or a structured signal —
`notFound` (DOCUMENT_NOT_FOUND), `conflict` (STATE_CONFLICT),
`invalidTransition` (INVALID_STATE_TRANSITION), or `invalidInput` for a
violated `error_message` requirement. -/
inductive TransitionResult where
  | ok (doc : DocRecord)
  | notFound
  | conflict
  | invalidTransition
  | invalidInput
deriving DecidableEq, Repr

/-- The audit row written for a transition attempt
(`document_state_audit`, migration 003 in `src/unnamed/part_000`). -/
def auditOf (id : Nat) (prev : Option DocStatus) (req : TransitionRequest) (now : Nat) :
    AuditEntry :=
  { document_id := id
    previous_state := prev
    new_state := req.state
    worker_id := some req.worker_id
    error_message := req.error_message
    created_at := now }

/-- Replace keys present in the incoming pointer map, keep the rest. -/
def upsertPointers (old incoming : List (String × String)) : List (String × String) :=
  old.filter (fun kv => !(incoming.any (fun n => n.1 == kv.1))) ++ incoming

/-- Modelled from the spec: the field updates of a successful transition —
new status, `error_message` kept only when entering `failed`,
`last_processed_at` stamped, artifact pointers merged.  (`updated_at` is
stamped by the trigger, see `triggerUpdate`.) -/
def transitionFields (req : TransitionRequest) (now : Nat) (r : DocRecord) : DocRecord :=
  { r with
      status := req.state
      error_message := if req.state = DocStatus.failed then req.error_message else none
      last_processed_at := some now
      artifact_pointers := upsertPointers r.artifact_pointers req.artifact_pointers }

/-- Modelled from the spec: the `error_message` input rule — mandatory when
transitioning into `failed`, forbidden otherwise. -/
def errorMessageOk (req : TransitionRequest) : Bool :=
  if req.state = DocStatus.failed then req.error_message.isSome
  else req.error_message.isNone

/-- Modelled from the spec: `TransitionState` — look the document up, check
the optimistic lock (`expected_state`) at the compare-and-swap, then validate
the transition against the table and the `error_message` rule, and apply it
through the `updated_at` trigger.  Every attempt on an existing document
appends one audit entry; only the accepted attempt mutates the record. -/
def transitionState (id : Nat) (req : TransitionRequest) (now : Nat) (s : Store) :
    TransitionResult × Store :=
  match s.documents.find? (fun r => r.document_id == id) with
  | none => (TransitionResult.notFound, s)
  | some r =>
      let audited := s.audit ++ [auditOf id (some r.status) req now]
      if req.expected_state.isSome ∧ req.expected_state ≠ some r.status then
        (TransitionResult.conflict, { s with audit := audited })
      else if allowedTransition r.status req.state then
        if errorMessageOk req then
          (TransitionResult.ok (triggerUpdate now (transitionFields req now) r),
           { s with
              documents := updateDoc id now (transitionFields req now) s.documents
              audit := audited })
        else (TransitionResult.invalidInput, { s with audit := audited })
      else (TransitionResult.invalidTransition, { s with audit := audited })

/-- `GetDocument`: look a record up by id. -/
def getById (id : Nat) (s : Store) : Option DocRecord :=
  s.documents.find? (fun r => r.document_id == id)

/-! ## Outbox forwarder (modelled from the spec §4.4; redrive policy from
`src/unnamed/part_000`) -/

/-- `maxReceiveCount` of the `document-registered` queue's redrive policy in
`src/unnamed/part_000`. -/
def maxReceiveCount : Nat := 3

/-- Modelled from the spec: one delivery attempt by the asynchronous
forwarder on the head outbox event.  Success removes the event; failure
increments its receive count and either requeues it or, at the bounded
attempt limit, moves it to the dead-letter queue.  Documents, provenance and
audit are untouched either way. -/
def forwardStep (delivered : Bool) (s : Store) : Store :=
  match s.outbox with
  | [] => s
  | e :: rest =>
      if delivered then { s with outbox := rest }
      else if maxReceiveCount ≤ e.receive_count + 1 then
        { s with
            outbox := rest
            dead_letter := s.dead_letter ++ [{ e with receive_count := e.receive_count + 1 }] }
      else
        { s with outbox := rest ++ [{ e with receive_count := e.receive_count + 1 }] }

/-- Run the forwarder over a list of delivery outcomes. -/
def runForwarder (outcomes : List Bool) (s : Store) : Store :=
  outcomes.foldl (fun st o => forwardStep o st) s

/-! ## Operation sequences -/

/-- One registry operation, tagged with the wall-clock time it runs at. -/
inductive RegistryOp where
  | reg (req : RegisterRequest) (now : Nat)
  | trans (id : Nat) (req : TransitionRequest) (now : Nat)
  | forward (delivered : Bool)
deriving Repr

/-- Apply one operation to the store. -/
def applyOp : RegistryOp → Store → Store
  | RegistryOp.reg req now, s => (register req now s).2
  | RegistryOp.trans id req now, s => (transitionState id req now s).2
  | RegistryOp.forward d, s => forwardStep d s

/-- Run a sequence of operations. -/
def runOps (ops : List RegistryOp) (s : Store) : Store :=
  ops.foldl (fun st op => applyOp op st) s

/-- The wall-clock time of an operation, when it has one. -/
def opTime : RegistryOp → Option Nat
  | RegistryOp.reg _ now => some now
  | RegistryOp.trans _ _ now => some now
  | RegistryOp.forward _ => none

/-! ## Concrete fixtures for witnesses and counterexamples -/

/-- A well-formed 64-hex content hash. -/
def hashA : String := String.mk (List.replicate 64 'a')

/-- A second, distinct well-formed content hash. -/
def hashB : String := String.mk (List.replicate 64 'b')

/-- The empty store. -/
def emptyStore : Store :=
  { documents := [], provenance := [], audit := [], outbox := [], dead_letter := [],
    next_id := 1 }

/-- A basic registration request carrying `hashA` and no DOI. -/
def reqA : RegisterRequest :=
  { doi := none, content_hash := hashA, title := "Solar Flare Analysis Study",
    subtitle := none, journal := none, year := some 2024, authors := [],
    source := "upload", user_id := "u1", source_metadata := [("upload", "m1")] }

/-- A request whose `content_hash` is not 64 hex characters. -/
def reqBadHash : RegisterRequest :=
  { reqA with content_hash := "xyz" }

/-- A record as `reqA` registers it at time 0 with id 1. -/
def docA : DocRecord := newRecord reqA 1 0

/-- A one-document store holding `docA`. -/
def storeA : Store :=
  { documents := [docA], provenance := [provOf reqA 1 0], audit := [],
    outbox := [], dead_letter := [], next_id := 2 }

/-- A transition request towards `state` from worker `w1`. -/
def tReq (st : DocStatus) (e : Option DocStatus) (em : Option String) : TransitionRequest :=
  { state := st, expected_state := e, worker_id := "w1", error_message := em,
    artifact_pointers := [] }

/-! ## Claim theorems -/

/-- C6: a `Register` request with a malformed `content_hash` (wrong
length/format) or malformed DOI format returns `rejected` with a specific
reason before any store access: the store is left exactly as it was, and the
outcome does not depend on the store at all (the same request rejects
identically against any other store), so the request is never treated as a
no-match insert. -/
theorem register_rejects_malformed (req : RegisterRequest) (now : Nat) (s s' : Store)
    (h : validContentHash req.content_hash = false ∨
      ∃ d, req.doi = some d ∧ validDoiFormat d = false) :
    (∃ reason, (register req now s).1 = RegisterResult.rejected reason) ∧
    (register req now s).2 = s ∧
    (register req now s).1 = (register req now s').1 := by
  have hv : ∃ reason, registerValidate req = some reason := by
    rcases h with h1 | ⟨d, hd, hdv⟩
    · exact ⟨RejectReason.INVALID_CONTENT_HASH, by simp [registerValidate, h1]⟩
    · by_cases hc : validContentHash req.content_hash
      · exact ⟨RejectReason.INVALID_DOI, by simp [registerValidate, hc, hd, hdv]⟩
      · exact ⟨RejectReason.INVALID_CONTENT_HASH, by
          simp [registerValidate, hc]⟩
  obtain ⟨reason, hr⟩ := hv
  exact ⟨⟨reason, by simp [register, hr]⟩, by simp [register, hr], by simp [register, hr]⟩

/-- Witness for C6: a three-character hash is rejected against the empty
store and against a populated store alike. -/
theorem register_rejects_malformed_witness :
    (∃ reason, (register reqBadHash 0 emptyStore).1 = RegisterResult.rejected reason) ∧
    (register reqBadHash 0 emptyStore).2 = emptyStore ∧
    (register reqBadHash 0 emptyStore).1 = (register reqBadHash 0 storeA).1 :=
  register_rejects_malformed reqBadHash 0 emptyStore storeA (Or.inl (by decide))

/-- C2: a `TransitionState` request whose (current, target) pair is not one
of the four allowed transitions — when the optimistic lock does not fire
(`expected_state` absent or equal to the stored status) — is rejected as
`invalidTransition` (INVALID_STATE_TRANSITION), and the document rows are
completely unchanged, so the document still reads back with its old
status. -/
theorem transition_invalid_rejected (id : Nat) (req : TransitionRequest) (now : Nat)
    (s : Store) (r : DocRecord)
    (hfind : getById id s = some r)
    (hexp : req.expected_state = none ∨ req.expected_state = some r.status)
    (hbad : allowedTransition r.status req.state = false) :
    (transitionState id req now s).1 = TransitionResult.invalidTransition ∧
    (transitionState id req now s).2.documents = s.documents ∧
    getById id (transitionState id req now s).2 = some r := by
  unfold getById at hfind
  have hc : ¬ (req.expected_state.isSome ∧ req.expected_state ≠ some r.status) := by
    rcases hexp with h | h <;> simp [h]
  refine ⟨?_, ?_, ?_⟩ <;> simp [transitionState, hfind, hc, hbad, getById]

/-- Witness for C2: `registered → indexed` on a concrete document is
rejected and the status remains `registered`. -/
theorem transition_invalid_rejected_witness :
    ((transitionState 1 (tReq DocStatus.indexed none none) 7 storeA).1 =
        TransitionResult.invalidTransition ∧
      (transitionState 1 (tReq DocStatus.indexed none none) 7 storeA).2.documents =
        storeA.documents ∧
      getById 1 (transitionState 1 (tReq DocStatus.indexed none none) 7 storeA).2 =
        some docA) ∧
    (getById 1 (transitionState 1 (tReq DocStatus.indexed none none) 7 storeA).2).map
      DocRecord.status = some DocStatus.registered :=
  ⟨transition_invalid_rejected 1 (tReq DocStatus.indexed none none) 7 storeA docA
      (by decide) (Or.inl rfl) (by decide),
    by decide⟩

/-- A copy of `docA` advanced to `processing`. -/
def docP : DocRecord := { docA with status := DocStatus.processing }

/-- A one-document store holding `docP`. -/
def storeP : Store := { storeA with documents := [docP] }

/-- Updating the row found by id rewrites exactly that row through the
trigger, provided the update function keeps the id. -/
theorem updateDoc_find? (id : Nat) (now : Nat) (f : DocRecord → DocRecord)
    (hf : ∀ d, (f d).document_id = d.document_id) :
    ∀ (l : List DocRecord) (r : DocRecord),
      l.find? (fun d => d.document_id == id) = some r →
      (updateDoc id now f l).find? (fun d => d.document_id == id) =
        some (triggerUpdate now f r) := by
  intro l
  induction l with
  | nil => intro r h; simp at h
  | cons a t ih =>
      intro r h
      by_cases ha : a.document_id = id
      · have hr : r = a := by
          rw [List.find?_cons_of_pos _ (by simp [ha])] at h
          exact (Option.some.inj h).symm
        subst hr
        simp only [updateDoc, if_pos ha]
        exact List.find?_cons_of_pos _ (by simp [triggerUpdate, hf, ha])
      · rw [List.find?_cons_of_neg _ (by simp [ha])] at h
        simp only [updateDoc, if_neg ha]
        rw [List.find?_cons_of_neg _ (by simp [ha])]
        exact ih r h

/-- C3 counterexample: with `expected_status` omitted, a structurally valid
transition (`processing → failed`) is nevertheless not applied when
`error_message` is missing — the call is rejected as invalid input and the
status stays `processing`, refuting "applied unconditionally whenever it is
structurally valid". -/
theorem transition_unconditional_counterexample :
    allowedTransition DocStatus.processing DocStatus.failed = true ∧
    (tReq DocStatus.failed none none).expected_state = none ∧
    (transitionState 1 (tReq DocStatus.failed none none) 9 storeP).1 =
      TransitionResult.invalidInput ∧
    (getById 1 (transitionState 1 (tReq DocStatus.failed none none) 9 storeP).2).map
      DocRecord.status = some DocStatus.processing := by
  decide

/-- C3 amended: a supplied `expected_status` differing from the stored status
is rejected as `conflict` (STATE_CONFLICT) with the document rows unchanged;
with `expected_status` omitted the transition is applied unconditionally
whenever it is structurally valid from the current status and the
`error_message` input rule is satisfied. -/
theorem transition_optimistic_lock (id : Nat) (req : TransitionRequest) (now : Nat)
    (s : Store) (r : DocRecord)
    (hfind : getById id s = some r) :
    (req.expected_state.isSome ∧ req.expected_state ≠ some r.status →
      (transitionState id req now s).1 = TransitionResult.conflict ∧
      (transitionState id req now s).2.documents = s.documents ∧
      getById id (transitionState id req now s).2 = some r) ∧
    (req.expected_state = none →
      allowedTransition r.status req.state = true →
      errorMessageOk req = true →
      (transitionState id req now s).1 =
        TransitionResult.ok (triggerUpdate now (transitionFields req now) r) ∧
      (getById id (transitionState id req now s).2).map DocRecord.status =
        some req.state) := by
  unfold getById at hfind
  constructor
  · intro hc
    refine ⟨?_, ?_, ?_⟩ <;> simp [transitionState, hfind, hc, getById]
  · intro hexp hok hmsg
    have hc : ¬ (req.expected_state.isSome ∧ req.expected_state ≠ some r.status) := by
      simp [hexp]
    have hup := updateDoc_find? id now (transitionFields req now)
      (fun d => rfl) s.documents r hfind
    refine ⟨?_, ?_⟩ <;>
      simp [transitionState, hfind, hc, hok, hmsg, getById, hup, triggerUpdate,
        transitionFields]

/-- Witness for C3 amended: on a document at `processing`, a call with
`expected_state = registered` is rejected with a conflict and the status
stays `processing`; with no `expected_state`, `processing → indexed`
succeeds. -/
theorem transition_optimistic_lock_witness :
    ((transitionState 1 (tReq DocStatus.indexed (some DocStatus.registered) none) 9 storeP).1 =
        TransitionResult.conflict ∧
      (transitionState 1 (tReq DocStatus.indexed (some DocStatus.registered) none) 9 storeP).2.documents =
        storeP.documents ∧
      getById 1 (transitionState 1 (tReq DocStatus.indexed (some DocStatus.registered) none) 9 storeP).2 =
        some docP) ∧
    ((transitionState 1 (tReq DocStatus.indexed none none) 9 storeP).1 =
        TransitionResult.ok
          (triggerUpdate 9 (transitionFields (tReq DocStatus.indexed none none) 9) docP) ∧
      (getById 1 (transitionState 1 (tReq DocStatus.indexed none none) 9 storeP).2).map
        DocRecord.status = some DocStatus.indexed) :=
  ⟨(transition_optimistic_lock 1 (tReq DocStatus.indexed (some DocStatus.registered) none) 9
      storeP docP (by decide)).1 ⟨by decide, by decide⟩,
    (transition_optimistic_lock 1 (tReq DocStatus.indexed none none) 9
      storeP docP (by decide)).2 rfl (by decide) (by decide)⟩

/-- `updateDoc` never changes the number of rows. -/
theorem updateDoc_length (id : Nat) (now : Nat) (f : DocRecord → DocRecord) :
    ∀ l : List DocRecord, (updateDoc id now f l).length = l.length := by
  intro l
  induction l with
  | nil => rfl
  | cons a t ih =>
      by_cases ha : a.document_id = id <;> simp [updateDoc, ha, ih]

/-- A single operation only ever appends to the provenance table. -/
theorem applyOp_provenance_extends (op : RegistryOp) (s : Store) :
    ∃ t, (applyOp op s).provenance = s.provenance ++ t := by
  cases op with
  | reg req now =>
      show ∃ t, (register req now s).2.provenance = s.provenance ++ t
      unfold register duplicateOutcome
      repeat' split
      all_goals first
        | exact ⟨_, rfl⟩
        | exact ⟨[], by simp⟩
  | trans id req now =>
      show ∃ t, (transitionState id req now s).2.provenance = s.provenance ++ t
      unfold transitionState
      repeat' split
      all_goals exact ⟨[], by simp⟩
  | forward d =>
      show ∃ t, (forwardStep d s).provenance = s.provenance ++ t
      unfold forwardStep
      repeat' split
      all_goals exact ⟨[], by simp⟩

/-- C9: provenance is append-only — across any sequence of registry
operations (registrations, state transitions, forwarder steps), the final
provenance table extends the initial one; no entry is ever mutated or
deleted. -/
theorem provenance_append_only (ops : List RegistryOp) (s : Store) :
    ∃ t, (runOps ops s).provenance = s.provenance ++ t := by
  induction ops generalizing s with
  | nil => exact ⟨[], by simp [runOps]⟩
  | cons op rest ih =>
      obtain ⟨t1, h1⟩ := applyOp_provenance_extends op s
      obtain ⟨t2, h2⟩ := ih (applyOp op s)
      refine ⟨t1 ++ t2, ?_⟩
      have : runOps (op :: rest) s = runOps rest (applyOp op s) := by
        simp [runOps]
      rw [this, h2, h1, List.append_assoc]

/-- A forwarder step never touches documents, provenance or audit. -/
theorem forwardStep_tables (b : Bool) (s : Store) :
    (forwardStep b s).documents = s.documents ∧
    (forwardStep b s).provenance = s.provenance ∧
    (forwardStep b s).audit = s.audit := by
  unfold forwardStep
  repeat' split
  all_goals exact ⟨rfl, rfl, rfl⟩

/-- Any run of the forwarder never touches documents, provenance or audit. -/
theorem runForwarder_tables (outcomes : List Bool) (t : Store) :
    (runForwarder outcomes t).documents = t.documents ∧
    (runForwarder outcomes t).provenance = t.provenance ∧
    (runForwarder outcomes t).audit = t.audit := by
  induction outcomes generalizing t with
  | nil => exact ⟨rfl, rfl, rfl⟩
  | cons o rest ih =>
      have hstep := forwardStep_tables o t
      have hrun := ih (forwardStep o t)
      have : runForwarder (o :: rest) t = runForwarder rest (forwardStep o t) := by
        simp [runForwarder]
      rw [this]
      exact ⟨hrun.1.trans hstep.1, hrun.2.1.trans hstep.2.1, hrun.2.2.trans hstep.2.2⟩

/-- C8: the outbox pattern — (i) a `Register` that answers `queued` commits
exactly one new document row and one new `DocumentRegistered` outbox row
together, and any other answer commits neither; (ii) asynchronous delivery
never touches the registry tables, so no delivery failure can undo a
registration and every registered document stays queryable; (iii) an event
that fails `maxReceiveCount` (3, from the queue's redrive policy) delivery
attempts is moved to the dead-letter queue. -/
theorem outbox_atomic_and_dead_letter (req : RegisterRequest) (now : Nat) (s : Store)
    (outcomes : List Bool) (t : Store) (e : OutboxEvent) (id : Nat) (d : DocRecord) :
    ((∃ i, (register req now s).1 = RegisterResult.queued i) →
      (register req now s).2.documents.length = s.documents.length + 1 ∧
      (register req now s).2.outbox.length = s.outbox.length + 1) ∧
    ((¬ ∃ i, (register req now s).1 = RegisterResult.queued i) →
      (register req now s).2.documents.length = s.documents.length ∧
      (register req now s).2.outbox = s.outbox) ∧
    ((runForwarder outcomes t).documents = t.documents ∧
      (runForwarder outcomes t).provenance = t.provenance ∧
      (runForwarder outcomes t).audit = t.audit) ∧
    (getById id t = some d → getById id (runForwarder outcomes t) = some d) ∧
    (t.outbox = [e] → e.receive_count = 0 →
      (runForwarder [false, false, false] t).outbox = [] ∧
      (runForwarder [false, false, false] t).dead_letter =
        t.dead_letter ++ [{ e with receive_count := 3 }]) := by
  refine ⟨?_, ?_, runForwarder_tables outcomes t, ?_, ?_⟩
  · rintro ⟨i, hi⟩
    cases hv : registerValidate req with
    | some reason => simp [register, hv] at hi
    | none =>
        cases hd : dedupCheck req s.documents with
        | some r => simp [register, hv, hd, duplicateOutcome] at hi
        | none =>
            cases hf : s.documents.find? (fun d => d.content_hash == req.content_hash) with
            | some r => simp [register, hv, hd, hf, duplicateOutcome] at hi
            | none => simp [register, hv, hd, hf]
  · intro hno
    cases hv : registerValidate req with
    | some reason => simp [register, hv]
    | none =>
        cases hd : dedupCheck req s.documents with
        | some r => simp [register, hv, hd, duplicateOutcome, updateDoc_length]
        | none =>
            cases hf : s.documents.find? (fun d => d.content_hash == req.content_hash) with
            | some r => simp [register, hv, hd, hf, duplicateOutcome, updateDoc_length]
            | none => exact absurd ⟨s.next_id, by simp [register, hv, hd, hf]⟩ hno
  · intro hd
    unfold getById at hd ⊢
    rw [(runForwarder_tables outcomes t).1, hd]
  · intro hout hrc
    have h1 : forwardStep false t =
        { t with outbox := [{ e with receive_count := 1 }] } := by
      simp [forwardStep, hout, maxReceiveCount, hrc]
    have h2 : forwardStep false { t with outbox := [{ e with receive_count := 1 }] } =
        { t with outbox := [{ e with receive_count := 2 }] } := by
      simp [forwardStep, maxReceiveCount]
    have h3 : forwardStep false { t with outbox := [{ e with receive_count := 2 }] } =
        { t with outbox := [], dead_letter := t.dead_letter ++ [{ e with receive_count := 3 }] } := by
      simp [forwardStep, maxReceiveCount]
    have : runForwarder [false, false, false] t =
        forwardStep false (forwardStep false (forwardStep false t)) := by
      simp [runForwarder]
    rw [this, h1, h2, h3]
    exact ⟨rfl, rfl⟩

/-- The store as `reqA` leaves it when registered against the empty store:
one document, one pending outbox event. -/
def storeE : Store := (register reqA 0 emptyStore).2

/-- Witness for C8: registering `reqA` commits one record and one event;
three failed deliveries dead-letter the event while the document stays
queryable. -/
theorem outbox_atomic_and_dead_letter_witness :
    ((register reqA 0 emptyStore).2.documents.length = emptyStore.documents.length + 1 ∧
      (register reqA 0 emptyStore).2.outbox.length = emptyStore.outbox.length + 1) ∧
    getById 1 (runForwarder [false, false, false] storeE) = some docA ∧
    ((runForwarder [false, false, false] storeE).outbox = [] ∧
      (runForwarder [false, false, false] storeE).dead_letter =
        storeE.dead_letter ++ [{ eventOf reqA 1 0 with receive_count := 3 }]) :=
  ⟨(outbox_atomic_and_dead_letter reqA 0 emptyStore [false, false, false] storeE
      (eventOf reqA 1 0) 1 docA).1 ⟨1, by decide⟩,
    (outbox_atomic_and_dead_letter reqA 0 emptyStore [false, false, false] storeE
      (eventOf reqA 1 0) 1 docA).2.2.2.1 (by decide),
    (outbox_atomic_and_dead_letter reqA 0 emptyStore [false, false, false] storeE
      (eventOf reqA 1 0) 1 docA).2.2.2.2 (by decide) (by decide)⟩

/-! ## Timestamps and the `updated_at` trigger (C10) -/

/-- Every row was created no later than it was last updated, and no stamp
exceeds the clock bound `c`. -/
def stampsLe (c : Nat) (l : List DocRecord) : Prop :=
  ∀ d ∈ l, d.created_at ≤ d.updated_at ∧ d.updated_at ≤ c

/-- The operation times are nondecreasing and start at or after the clock
bound. -/
def timesMono : Nat → List RegistryOp → Bool
  | _, [] => true
  | c, op :: rest =>
      match opTime op with
      | none => timesMono c rest
      | some n => decide (c ≤ n) && timesMono n rest

/-- Growing the clock bound preserves `stampsLe`. -/
theorem stampsLe_mono {c n : Nat} (hcn : c ≤ n) {l : List DocRecord}
    (h : stampsLe c l) : stampsLe n l :=
  fun d hd => ⟨(h d hd).1, le_trans (h d hd).2 hcn⟩

/-- Rows of an updated table either come straight from the old table or are
the trigger-stamped update of an old row. -/
theorem mem_updateDoc (id n : Nat) (f : DocRecord → DocRecord) :
    ∀ (l : List DocRecord) (d' : DocRecord), d' ∈ updateDoc id n f l →
      d' ∈ l ∨ ∃ d ∈ l, d' = triggerUpdate n f d := by
  intro l
  induction l with
  | nil => intro d' h; simp [updateDoc] at h
  | cons a t ih =>
      intro d' h
      by_cases ha : a.document_id = id
      · simp only [updateDoc, if_pos ha, List.mem_cons] at h
        rcases h with h | h
        · exact Or.inr ⟨a, List.mem_cons_self a t, h⟩
        · exact Or.inl (List.mem_cons_of_mem _ h)
      · simp only [updateDoc, if_neg ha, List.mem_cons] at h
        rcases h with h | h
        · exact Or.inl (by simp [h])
        · rcases ih d' h with h1 | ⟨d, hd, hh⟩
          · exact Or.inl (List.mem_cons_of_mem _ h1)
          · exact Or.inr ⟨d, List.mem_cons_of_mem _ hd, hh⟩

/-- `updateDoc` with an update that keeps `created_at` preserves the stamp
invariant at the update time. -/
theorem stampsLe_updateDoc {c : Nat} (id n : Nat) (f : DocRecord → DocRecord)
    (hfc : ∀ d, (f d).created_at = d.created_at) {l : List DocRecord}
    (h : stampsLe c l) (hcn : c ≤ n) : stampsLe n (updateDoc id n f l) := by
  intro d' hd'
  rcases mem_updateDoc id n f l d' hd' with hmem | ⟨d, hd, rfl⟩
  · exact stampsLe_mono hcn h d' hmem
  · refine ⟨?_, le_refl n⟩
    show (f d).created_at ≤ n
    rw [hfc d]
    exact le_trans (h d hd).1 (le_trans (h d hd).2 hcn)

/-- `register` at time `now ≥ c` preserves the stamp invariant at `now`. -/
theorem register_stamps {c : Nat} (req : RegisterRequest) (now : Nat) (s : Store)
    (h : stampsLe c s.documents) (hcn : c ≤ now) :
    stampsLe now (register req now s).2.documents := by
  cases hv : registerValidate req with
  | some reason => simpa [register, hv] using stampsLe_mono hcn h
  | none =>
      cases hd : dedupCheck req s.documents with
      | some r =>
          simp only [register, hv, hd, duplicateOutcome]
          exact stampsLe_updateDoc r.document_id now
            (fun d => { d with
              source_metadata := mergeSourceMetadata d.source_metadata req.source_metadata })
            (fun d => rfl) h hcn
      | none =>
          cases hf : s.documents.find? (fun d => d.content_hash == req.content_hash) with
          | some r =>
              simp only [register, hv, hd, hf, duplicateOutcome]
              exact stampsLe_updateDoc r.document_id now
                (fun d => { d with
                  source_metadata := mergeSourceMetadata d.source_metadata req.source_metadata })
                (fun d => rfl) h hcn
          | none =>
              simp only [register, hv, hd, hf]
              intro d' hd'
              rcases List.mem_append.mp hd' with hm | hm
              · exact stampsLe_mono hcn h d' hm
              · rcases List.mem_singleton.mp hm with rfl
                exact ⟨le_refl now, le_refl now⟩

/-- `transitionState` at time `now ≥ c` preserves the stamp invariant at
`now`. -/
theorem transition_stamps {c : Nat} (id : Nat) (req : TransitionRequest) (now : Nat)
    (s : Store) (h : stampsLe c s.documents) (hcn : c ≤ now) :
    stampsLe now (transitionState id req now s).2.documents := by
  unfold transitionState
  cases hf : s.documents.find? (fun r => r.document_id == id) with
  | none => exact stampsLe_mono hcn h
  | some r =>
      by_cases hc : req.expected_state.isSome ∧ req.expected_state ≠ some r.status
      · simpa [hc] using stampsLe_mono hcn h
      · by_cases ha : allowedTransition r.status req.state = true
        · by_cases hm : errorMessageOk req = true
          · simp only [hc, ha, hm, if_true, if_false, if_pos, if_neg, not_false_iff]
            simpa [hc, ha, hm] using
              stampsLe_updateDoc id now (transitionFields req now) (fun d => rfl) h hcn
          · simpa [hc, ha, hm] using stampsLe_mono hcn h
        · simpa [hc, ha] using stampsLe_mono hcn h

/-- Running operations with monotone times starting at or after the clock
bound keeps every row created-before-updated. -/
theorem runOps_stamps : ∀ (ops : List RegistryOp) (c : Nat) (s : Store),
    timesMono c ops = true → stampsLe c s.documents →
    ∃ c', c ≤ c' ∧ stampsLe c' (runOps ops s).documents := by
  intro ops
  induction ops with
  | nil => intro c s _ h; exact ⟨c, le_refl c, by simpa [runOps] using h⟩
  | cons op rest ih =>
      intro c s hm h
      have hrun : runOps (op :: rest) s = runOps rest (applyOp op s) := by
        simp [runOps]
      rw [hrun]
      cases op with
      | reg req now =>
          simp only [timesMono, opTime, Bool.and_eq_true, decide_eq_true_eq] at hm
          obtain ⟨c', hc', hs⟩ := ih now (applyOp (RegistryOp.reg req now) s) hm.2
            (register_stamps req now s h hm.1)
          exact ⟨c', le_trans hm.1 hc', hs⟩
      | trans id req now =>
          simp only [timesMono, opTime, Bool.and_eq_true, decide_eq_true_eq] at hm
          obtain ⟨c', hc', hs⟩ := ih now (applyOp (RegistryOp.trans id req now) s) hm.2
            (transition_stamps id req now s h hm.1)
          exact ⟨c', le_trans hm.1 hc', hs⟩
      | forward b =>
          simp only [timesMono, opTime] at hm
          have hdocs : (applyOp (RegistryOp.forward b) s).documents = s.documents :=
            (forwardStep_tables b s).1
          obtain ⟨c', hc', hs⟩ := ih c (applyOp (RegistryOp.forward b) s) hm
            (by rw [hdocs]; exact h)
          exact ⟨c', hc', hs⟩

/-- C10: (i) under a monotone clock, every document row of any reachable
store satisfies `created_at ≤ updated_at`; (ii) any single timed operation
leaves each row either untouched or stamped with `updated_at` equal to the
operation's time — the `update_updated_at_column` trigger fires on every row
update. -/
theorem updated_at_trigger (ops : List RegistryOp) (c : Nat) (s : Store)
    (h : stampsLe c s.documents) (hm : timesMono c ops = true) :
    (∀ d ∈ (runOps ops s).documents, d.created_at ≤ d.updated_at) ∧
    (∀ (op : RegistryOp) (n : Nat), opTime op = some n →
      ∀ d' ∈ (applyOp op s).documents, d' ∈ s.documents ∨ d'.updated_at = n) := by
  constructor
  · obtain ⟨c', _, hs⟩ := runOps_stamps ops c s hm h
    exact fun d hd => (hs d hd).1
  · intro op n hn d' hd'
    cases op with
    | forward b => simp [opTime] at hn
    | reg req now =>
        have hnow : n = now := by simpa [opTime] using hn.symm
        subst hnow
        revert hd'
        show d' ∈ (register req n s).2.documents → _
        cases hv : registerValidate req with
        | some reason => intro hd'; exact Or.inl (by simpa [register, hv] using hd')
        | none =>
            cases hd : dedupCheck req s.documents with
            | some r =>
                intro hd'
                simp only [register, hv, hd, duplicateOutcome] at hd'
                rcases mem_updateDoc _ n _ _ d' hd' with hmem | ⟨d0, _, rfl⟩
                · exact Or.inl hmem
                · exact Or.inr rfl
            | none =>
                cases hf : s.documents.find?
                    (fun d => d.content_hash == req.content_hash) with
                | some r =>
                    intro hd'
                    simp only [register, hv, hd, hf, duplicateOutcome] at hd'
                    rcases mem_updateDoc _ n _ _ d' hd' with hmem | ⟨d0, _, rfl⟩
                    · exact Or.inl hmem
                    · exact Or.inr rfl
                | none =>
                    intro hd'
                    simp only [register, hv, hd, hf] at hd'
                    rcases List.mem_append.mp hd' with hmem | hmem
                    · exact Or.inl hmem
                    · rcases List.mem_singleton.mp hmem with rfl
                      exact Or.inr rfl
    | trans id req now =>
        have hnow : n = now := by simpa [opTime] using hn.symm
        subst hnow
        revert hd'
        show d' ∈ (transitionState id req n s).2.documents → _
        unfold transitionState
        cases hf : s.documents.find? (fun r => r.document_id == id) with
        | none => exact fun hd' => Or.inl hd'
        | some r =>
            by_cases hc : req.expected_state.isSome ∧ req.expected_state ≠ some r.status
            · intro hd'; exact Or.inl (by simpa [hc] using hd')
            · by_cases ha : allowedTransition r.status req.state = true
              · by_cases hmsg : errorMessageOk req = true
                · intro hd'
                  simp only [hc, ha, hmsg, if_pos, if_neg, not_false_iff, if_true] at hd'
                  rcases mem_updateDoc _ n _ _ d' (by simpa [hc, ha, hmsg] using hd') with
                    hmem | ⟨d0, _, rfl⟩
                  · exact Or.inl hmem
                  · exact Or.inr rfl
                · intro hd'; exact Or.inl (by simpa [hc, ha, hmsg] using hd')
              · intro hd'; exact Or.inl (by simpa [hc, ha] using hd')

/-- Witness for C10 on a concrete run: register at time 0, transition at
time 5, starting from the empty store. -/
theorem updated_at_trigger_witness :
    (∀ d ∈ (runOps [RegistryOp.reg reqA 0,
        RegistryOp.trans 1 (tReq DocStatus.processing none none) 5] emptyStore).documents,
      d.created_at ≤ d.updated_at) ∧
    (∀ (op : RegistryOp) (n : Nat), opTime op = some n →
      ∀ d' ∈ (applyOp op emptyStore).documents,
        d' ∈ emptyStore.documents ∨ d'.updated_at = n) :=
  updated_at_trigger
    [RegistryOp.reg reqA 0, RegistryOp.trans 1 (tReq DocStatus.processing none none) 5]
    0 emptyStore (fun d hd => absurd hd (List.not_mem_nil d)) (by decide)

/-! ## Idempotency by content hash (C1) -/

/-- When `content_hash` is unique among non-deleted records, the hash lookup
finds exactly the non-deleted holder. -/
theorem findHashMatch_unique (h : String) :
    ∀ (l : List DocRecord) (r : DocRecord),
      contentHashUniqueNonDeleted l → r ∈ l → r.deleted_at = none →
      r.content_hash = h → findHashMatch h l = some r := by
  intro l
  induction l with
  | nil => intro r _ hr _ _; simp at hr
  | cons a t ih =>
      intro r hu hr hact hh
      unfold contentHashUniqueNonDeleted at hu
      by_cases hp : (a.deleted_at.isNone && a.content_hash == h) = true
      · have hfind : findHashMatch h (a :: t) = some a :=
          List.find?_cons_of_pos _ hp
        rcases List.mem_cons.mp hr with rfl | hrt
        · exact hfind
        · exfalso
          obtain ⟨ha1, ha2⟩ : a.deleted_at.isNone = true ∧ (a.content_hash == h) = true := by
            simpa using hp
          have haact : a.deleted_at = none := Option.isNone_iff_eq_none.mp ha1
          have hahash : a.content_hash = h := by simpa using ha2
          rw [List.filter_cons, if_pos (by simp [haact])] at hu
          have hpair := (List.pairwise_cons.mp hu).1
          have hrmem : r ∈ t.filter (fun d => d.deleted_at.isNone) :=
            List.mem_filter.mpr ⟨hrt, by simp [hact]⟩
          exact hpair r hrmem (by rw [hahash, hh])
      · have hra : r ≠ a := by
          intro he
          subst he
          exact hp (by simp [hact, hh])
        have hrt : r ∈ t := by
          rcases List.mem_cons.mp hr with he | hrt
          · exact absurd he hra
          · exact hrt
        have hut : contentHashUniqueNonDeleted t := by
          unfold contentHashUniqueNonDeleted
          rw [List.filter_cons] at hu
          split at hu
          · exact (List.pairwise_cons.mp hu).2
          · exact hu
        show List.find? (fun d => d.deleted_at.isNone && d.content_hash == h) (a :: t) =
          some r
        exact (List.find?_cons_of_neg t hp).trans (ih r hut hrt hact hh)

/-- An update that keeps row ids keeps the table's id sequence. -/
theorem updateDoc_map_id (id : Nat) (now : Nat) (f : DocRecord → DocRecord)
    (hf : ∀ d, (f d).document_id = d.document_id) :
    ∀ l : List DocRecord,
      (updateDoc id now f l).map (fun d => d.document_id) =
        l.map (fun d => d.document_id) := by
  intro l
  induction l with
  | nil => rfl
  | cons a t ih =>
      by_cases ha : a.document_id = id <;>
        simp [updateDoc, ha, ih, triggerUpdate, hf]

/-- `docA` carrying a DOI of its own. -/
def docAd : DocRecord := { docA with doi := some "10.1000/a" }

/-- A second, unrelated registered document with `hashB` and its own DOI. -/
def reqB : RegisterRequest :=
  { reqA with
      content_hash := hashB
      doi := some "10.1000/b"
      title := "Another Paper Entirely" }

/-- The record `reqB` creates at time 1 with id 2. -/
def docBd : DocRecord := newRecord reqB 2 1

/-- A store holding both `docAd` (hashA, DOI 10.1000/a) and `docBd`
(hashB, DOI 10.1000/b). -/
def storeC1 : Store :=
  { documents := [docAd, docBd], provenance := [provOf reqA 1 0, provOf reqB 2 1],
    audit := [], outbox := [], dead_letter := [], next_id := 3 }

/-- A resubmission of `hashA` that carries document 2's DOI. -/
def reqX : RegisterRequest := { reqA with doi := some "10.1000/b" }

/-- C1 counterexample: document 1 is the only non-deleted holder of the
resubmitted `content_hash`, yet `Register` answers `duplicate` with document
2 — the DOI rule fires first (match order, rule 1) and overrides the hash
holder, refuting "returns the original `document_id` of the record that
holds H" for every later call submitting H. -/
theorem register_hash_idempotency_counterexample :
    (storeC1.documents.filter
        (fun r => r.deleted_at.isNone && r.content_hash == reqX.content_hash)).map
      (fun r => r.document_id) = [1] ∧
    (register reqX 9 storeC1).1 = RegisterResult.duplicate 2 := by
  decide

/-- C1 amended: when the resubmission's DOI is empty or itself resolves to
the hash holder, `Register` answers `duplicate` with the holder's id; it
keeps the table's id sequence unchanged (no second record), emits no
`DocumentRegistered` outbox event, and appends exactly one provenance
entry. -/
theorem register_hash_idempotent (req : RegisterRequest) (now : Nat) (s : Store)
    (r : DocRecord)
    (hv : registerValidate req = none)
    (hu : contentHashUniqueNonDeleted s.documents)
    (hr : r ∈ s.documents) (hact : r.deleted_at = none)
    (hh : r.content_hash = req.content_hash)
    (hdoi : submittedDoi req = none ∨
      ∃ nd, submittedDoi req = some nd ∧ findDoiMatch nd s.documents = some r) :
    (register req now s).1 = RegisterResult.duplicate r.document_id ∧
    (register req now s).2.documents.map (fun d => d.document_id) =
      s.documents.map (fun d => d.document_id) ∧
    (register req now s).2.outbox = s.outbox ∧
    (register req now s).2.provenance = s.provenance ++ [provOf req r.document_id now] := by
  have hhash : findHashMatch req.content_hash s.documents = some r :=
    findHashMatch_unique req.content_hash s.documents r hu hr hact hh
  have hdc : dedupCheck req s.documents = some r := by
    rcases hdoi with hno | ⟨nd, hnd, hfound⟩
    · simp [dedupCheck, hno, dedupRule234, hhash]
    · simp [dedupCheck, hnd, hfound]
  have hmap := updateDoc_map_id r.document_id now
    (fun d => { d with
      source_metadata := mergeSourceMetadata d.source_metadata req.source_metadata })
    (fun d => rfl) s.documents
  refine ⟨?_, ?_, ?_, ?_⟩ <;> simp [register, hv, hdc, duplicateOutcome, hmap]

/-- Witness for C1 amended: resubmitting `reqA` (same hash, no DOI) against
the one-document store answers `duplicate 1` with no new row, no event and
one appended provenance entry. -/
theorem register_hash_idempotent_witness :
    (register reqA 5 storeA).1 = RegisterResult.duplicate docA.document_id ∧
    (register reqA 5 storeA).2.documents.map (fun d => d.document_id) =
      storeA.documents.map (fun d => d.document_id) ∧
    (register reqA 5 storeA).2.outbox = storeA.outbox ∧
    (register reqA 5 storeA).2.provenance =
      storeA.provenance ++ [provOf reqA docA.document_id 5] :=
  register_hash_idempotent reqA 5 storeA docA (by decide)
    (by unfold contentHashUniqueNonDeleted; decide) (by decide) (by decide) (by decide)
    (Or.inl (by decide))

/-! ## Soft delete and the content-hash constraint (C7) -/

/-- The best-candidate fold only ever returns the accumulator or a list
member. -/
theorem pickBest_mem (tn : String) :
    ∀ (l : List DocRecord) (acc : Option DocRecord) (r : DocRecord),
      pickBest tn acc l = some r → acc = some r ∨ r ∈ l := by
  intro l
  induction l with
  | nil =>
      intro acc r h
      simp only [pickBest] at h
      exact Or.inl h
  | cons c t ih =>
      intro acc r h
      cases acc with
      | none =>
          rcases ih (some c) r h with h1 | h1
          · exact Or.inr (by rw [← Option.some.inj h1]; exact List.mem_cons_self c t)
          · exact Or.inr (List.mem_cons_of_mem _ h1)
      | some b =>
          rcases ih _ r h with h1 | h1
          · by_cases hb : fuzzyBeats tn c b = true
            · rw [if_pos hb] at h1
              exact Or.inr (by rw [← Option.some.inj h1]; exact List.mem_cons_self c t)
            · rw [if_neg hb] at h1
              exact Or.inl h1
          · exact Or.inr (List.mem_cons_of_mem _ h1)

/-- A fuzzy match is always drawn from the candidate pool. -/
theorem fuzzyMatch_mem_candidates (tn : String) (y : Int) (docs : List DocRecord)
    (r : DocRecord) (h : fuzzyMatch tn (some y) docs = some r) :
    r ∈ fuzzyCandidates tn y docs := by
  unfold fuzzyMatch at h
  rcases pickBest_mem tn (fuzzyCandidates tn y docs) none r h with h0 | h0
  · exact Option.noConfusion h0
  · exact h0

/-- Whatever the dedup check returns is a non-deleted record: soft-deleted
rows are excluded from every match rule. -/
theorem dedupCheck_active (req : RegisterRequest) (docs : List DocRecord) (r : DocRecord)
    (h : dedupCheck req docs = some r) : r.deleted_at = none := by
  have hr34 : ∀ r', dedupRule34 req docs = some r' → r'.deleted_at = none := by
    intro r' h'
    unfold dedupRule34 at h'
    cases hc : findCompositeMatch req.content_hash (normalizeTitle req.title) req.year docs with
    | some r3 =>
        rw [hc] at h'
        obtain rfl := Option.some.inj h'
        have hp := List.find?_some hc
        simp only [Bool.and_eq_true, Option.isNone_iff_eq_none] at hp
        exact hp.1.1.1
    | none =>
        rw [hc] at h'
        cases hy : req.year with
        | none => rw [hy] at h'; exact Option.noConfusion h'
        | some yv =>
            rw [hy] at h'
            have hmem := fuzzyMatch_mem_candidates (normalizeTitle req.title) yv docs r' h'
            have hp := (List.mem_filter.mp hmem).2
            simp only [Bool.and_eq_true, Option.isNone_iff_eq_none] at hp
            exact hp.1.1
  have hr234 : ∀ r', dedupRule234 req docs = some r' → r'.deleted_at = none := by
    intro r' h'
    unfold dedupRule234 at h'
    cases hh : findHashMatch req.content_hash docs with
    | some r2 =>
        rw [hh] at h'
        obtain rfl := Option.some.inj h'
        have hp := List.find?_some hh
        simp only [Bool.and_eq_true, Option.isNone_iff_eq_none] at hp
        exact hp.1
    | none => rw [hh] at h'; exact hr34 r' h'
  unfold dedupCheck at h
  cases hsd : submittedDoi req with
  | none =>
      simp only [hsd] at h
      exact hr234 r h
  | some nd =>
      simp only [hsd] at h
      cases hdm : findDoiMatch nd docs with
      | some r1 =>
          simp only [hdm] at h
          obtain rfl := Option.some.inj h
          have hp := List.find?_some hdm
          simp only [Bool.and_eq_true, Option.isNone_iff_eq_none] at hp
          exact hp.1
      | none =>
          simp only [hdm] at h
          exact hr234 r h

/-- A soft-deleted copy of `docA`, still holding `hashA`. -/
def docDel : DocRecord := { docA with deleted_at := some 3 }

/-- A store whose only row is the soft-deleted `docDel`. -/
def storeDel : Store := { storeA with documents := [docDel] }

/-- C7 counterexample: the only record holding the submitted hash is
soft-deleted; the dedup check indeed does not match it, but `Register` does
not create a new record — the `UNIQUE (content_hash)` constraint of
`src/unnamed/part_011` covers soft-deleted rows too, so the atomic insert is
rejected and the call lands on the read-then-merge path, answering
`duplicate` of the deleted record.  The table state the claim demands (a new
active row next to the deleted holder) satisfies the spec's non-deleted-only
wording yet violates the declared constraint. -/
theorem soft_delete_unique_scope_counterexample :
    storeDel.documents.map (fun r => (r.content_hash == reqA.content_hash, r.deleted_at)) =
      [(true, some 3)] ∧
    dedupCheck reqA storeDel.documents = none ∧
    (register reqA 9 storeDel).1 = RegisterResult.duplicate 1 ∧
    (register reqA 9 storeDel).2.documents.length = 1 ∧
    contentHashUniqueNonDeleted (storeDel.documents ++ [newRecord reqA 2 9]) ∧
    ¬ contentHashConstraint (storeDel.documents ++ [newRecord reqA 2 9]) := by
  refine ⟨by decide, by decide, by decide, by decide, ?_, ?_⟩
  · unfold contentHashUniqueNonDeleted
    decide
  · unfold contentHashConstraint
    decide

/-- C7 amended: a soft-deleted record is excluded from every dedup match
rule, but `content_hash` uniqueness spans all rows (deleted included): any
valid `Register` whose hash is already held by some record — deleted or not —
creates no new record and answers `duplicate`. -/
theorem soft_delete_unique_scope (req : RegisterRequest) (now : Nat) (s : Store)
    (hv : registerValidate req = none)
    (hex : ∃ r ∈ s.documents, r.content_hash = req.content_hash) :
    (∀ r, dedupCheck req s.documents = some r → r.deleted_at = none) ∧
    (∃ i, (register req now s).1 = RegisterResult.duplicate i) ∧
    (register req now s).2.documents.length = s.documents.length := by
  refine ⟨fun r h => dedupCheck_active req s.documents r h, ?_⟩
  cases hd : dedupCheck req s.documents with
  | some r =>
      exact ⟨⟨r.document_id, by simp [register, hv, hd, duplicateOutcome]⟩,
        by simp [register, hv, hd, duplicateOutcome, updateDoc_length]⟩
  | none =>
      cases hf : s.documents.find? (fun d => d.content_hash == req.content_hash) with
      | some r =>
          exact ⟨⟨r.document_id, by simp [register, hv, hd, hf, duplicateOutcome]⟩,
            by simp [register, hv, hd, hf, duplicateOutcome, updateDoc_length]⟩
      | none =>
          exfalso
          obtain ⟨r, hrm, hrh⟩ := hex
          exact List.find?_eq_none.mp hf r hrm (by simp [hrh])

/-- Witness for C7 amended, at the store holding only the soft-deleted
`docDel`. -/
theorem soft_delete_unique_scope_witness :
    (∀ r, dedupCheck reqA storeDel.documents = some r → r.deleted_at = none) ∧
    (∃ i, (register reqA 9 storeDel).1 = RegisterResult.duplicate i) ∧
    (register reqA 9 storeDel).2.documents.length = storeDel.documents.length :=
  soft_delete_unique_scope reqA 9 storeDel (by decide)
    ⟨docDel, by decide, by decide⟩

/-! ## Dedup rule order and best-candidate selection (C4) -/

/-- No candidate beats itself. -/
theorem fuzzyBeats_irrefl (tn : String) (r : DocRecord) : fuzzyBeats tn r r = false := by
  simp [fuzzyBeats]

/-- `fuzzyBeats` is transitive: strictly better than strictly better is
strictly better. -/
theorem fuzzyBeats_trans (tn : String) (a b c : DocRecord)
    (h1 : fuzzyBeats tn a b = true) (h2 : fuzzyBeats tn b c = true) :
    fuzzyBeats tn a c = true := by
  simp only [fuzzyBeats, decide_eq_true_eq] at h1 h2 ⊢
  rcases h1 with h1 | ⟨e1, l1⟩ <;> rcases h2 with h2 | ⟨e2, l2⟩
  · exact Or.inl (lt_trans h2 h1)
  · exact Or.inl (by rw [← e2]; exact h1)
  · exact Or.inl (by rw [← e1] at h2; exact h2)
  · exact Or.inr ⟨e1.trans e2, lt_trans l1 l2⟩

/-- `fuzzyBeats` is negatively transitive: if `a` does not beat `b` and `b`
does not beat `c`, then `a` does not beat `c`. -/
theorem fuzzyBeats_neg_trans (tn : String) (a b c : DocRecord)
    (h1 : fuzzyBeats tn a b = false) (h2 : fuzzyBeats tn b c = false) :
    fuzzyBeats tn a c = false := by
  simp only [fuzzyBeats, decide_eq_false_iff_not, not_or, not_and, not_lt] at h1 h2 ⊢
  obtain ⟨hle1, him1⟩ := h1
  obtain ⟨hle2, him2⟩ := h2
  refine ⟨le_trans hle1 hle2, fun he => ?_⟩
  have e1 : similarity tn a.title_normalized = similarity tn b.title_normalized := by
    refine le_antisymm hle1 ?_
    rw [← he] at hle2
    exact hle2
  have e2 : similarity tn b.title_normalized = similarity tn c.title_normalized := by
    rw [← e1]
    exact he
  exact le_trans (him2 e2) (him1 e1)

/-- What does it mean not to be beaten: the chosen record scores at least as
high, and on equal scores was created no later. -/
theorem fuzzyBeats_false_iff (tn : String) (c r : DocRecord) :
    fuzzyBeats tn c r = false ↔
      (similarity tn c.title_normalized ≤ similarity tn r.title_normalized ∧
        (similarity tn c.title_normalized = similarity tn r.title_normalized →
          r.created_at ≤ c.created_at)) := by
  simp [fuzzyBeats, not_or, not_and, not_lt]

/-- The best-candidate fold returns an element no list member beats, and that
also the starting accumulator does not beat. -/
theorem pickBest_not_beaten (tn : String) :
    ∀ (l : List DocRecord) (acc : Option DocRecord) (r : DocRecord),
      pickBest tn acc l = some r →
      (∀ c ∈ l, fuzzyBeats tn c r = false) ∧
      (∀ b, acc = some b → fuzzyBeats tn b r = false) := by
  intro l
  induction l with
  | nil =>
      intro acc r h
      simp only [pickBest] at h
      refine ⟨fun c hc => absurd hc (List.not_mem_nil c), fun b hb => ?_⟩
      rw [hb] at h
      obtain rfl := Option.some.inj h
      exact fuzzyBeats_irrefl tn _
  | cons c t ih =>
      intro acc r h
      cases acc with
      | none =>
          obtain ⟨hall, hacc⟩ := ih (some c) r h
          have hcr : fuzzyBeats tn c r = false := hacc c rfl
          refine ⟨fun c' hc' => ?_, fun b hb => Option.noConfusion hb⟩
          rcases List.mem_cons.mp hc' with rfl | hm
          · exact hcr
          · exact hall c' hm
      | some b =>
          simp only [pickBest] at h
          by_cases hb : fuzzyBeats tn c b = true
          · rw [if_pos hb] at h
            obtain ⟨hall, hacc⟩ := ih (some c) r h
            have hcr : fuzzyBeats tn c r = false := hacc c rfl
            refine ⟨fun c' hc' => ?_, fun b' hb' => ?_⟩
            · rcases List.mem_cons.mp hc' with rfl | hm
              · exact hcr
              · exact hall c' hm
            · obtain rfl := Option.some.inj hb'
              by_cases hbr : fuzzyBeats tn b r = true
              · exact absurd (fuzzyBeats_trans tn c b r hb hbr) (by simp [hcr])
              · simpa using hbr
          · rw [if_neg hb] at h
            obtain ⟨hall, hacc⟩ := ih (some b) r h
            have hbr : fuzzyBeats tn b r = false := hacc b rfl
            have hcb : fuzzyBeats tn c b = false := by simpa using hb
            have hcr : fuzzyBeats tn c r = false := fuzzyBeats_neg_trans tn c b r hcb hbr
            refine ⟨fun c' hc' => ?_, fun b' hb' => ?_⟩
            · rcases List.mem_cons.mp hc' with rfl | hm
              · exact hcr
              · exact hall c' hm
            · obtain rfl := Option.some.inj hb'
              exact hbr

/-- C4: the dedup check evaluates its four rules in fixed order with the
first match deciding the outcome — (i) a DOI match (only possible when the
submitted DOI is non-empty) decides immediately; (ii) with no DOI match, a
hash match decides; (iii) then a composite match; (iv) with none of the
exact rules firing, the outcome is exactly the fuzzy rule's, and any fuzzy
winner is a same-year, non-deleted, threshold-clearing candidate that no
other candidate strictly out-scores — on equal scores the winner was created
no later. -/
theorem dedup_match_order (req : RegisterRequest) (docs : List DocRecord) :
    (∀ nd r, submittedDoi req = some nd → findDoiMatch nd docs = some r →
      dedupCheck req docs = some r) ∧
    ((∀ nd, submittedDoi req = some nd → findDoiMatch nd docs = none) →
      ∀ r, findHashMatch req.content_hash docs = some r →
        dedupCheck req docs = some r) ∧
    ((∀ nd, submittedDoi req = some nd → findDoiMatch nd docs = none) →
      findHashMatch req.content_hash docs = none →
      ∀ r, findCompositeMatch req.content_hash (normalizeTitle req.title) req.year docs =
          some r →
        dedupCheck req docs = some r) ∧
    ((∀ nd, submittedDoi req = some nd → findDoiMatch nd docs = none) →
      findHashMatch req.content_hash docs = none →
      findCompositeMatch req.content_hash (normalizeTitle req.title) req.year docs = none →
      dedupCheck req docs = fuzzyMatch (normalizeTitle req.title) req.year docs) ∧
    (∀ y r, fuzzyMatch (normalizeTitle req.title) (some y) docs = some r →
      r ∈ fuzzyCandidates (normalizeTitle req.title) y docs ∧
      ∀ c ∈ fuzzyCandidates (normalizeTitle req.title) y docs,
        similarity (normalizeTitle req.title) c.title_normalized ≤
          similarity (normalizeTitle req.title) r.title_normalized ∧
        (similarity (normalizeTitle req.title) c.title_normalized =
            similarity (normalizeTitle req.title) r.title_normalized →
          r.created_at ≤ c.created_at)) := by
  refine ⟨?_, ?_, ?_, ?_, ?_⟩
  · intro nd r hnd hfound
    simp [dedupCheck, hnd, hfound]
  · intro hd1 r hr2
    cases hsd : submittedDoi req with
    | none => simp [dedupCheck, hsd, dedupRule234, hr2]
    | some nd => simp [dedupCheck, hsd, hd1 nd hsd, dedupRule234, hr2]
  · intro hd1 h2 r hr3
    cases hsd : submittedDoi req with
    | none => simp [dedupCheck, hsd, dedupRule234, h2, dedupRule34, hr3]
    | some nd => simp [dedupCheck, hsd, hd1 nd hsd, dedupRule234, h2, dedupRule34, hr3]
  · intro hd1 h2 h3
    cases hsd : submittedDoi req with
    | none => simp [dedupCheck, hsd, dedupRule234, h2, dedupRule34, h3]
    | some nd => simp [dedupCheck, hsd, hd1 nd hsd, dedupRule234, h2, dedupRule34, h3]
  · intro y r hf
    refine ⟨fuzzyMatch_mem_candidates _ y docs r hf, fun c hc => ?_⟩
    have hnb := pickBest_not_beaten (normalizeTitle req.title)
      (fuzzyCandidates (normalizeTitle req.title) y docs) none r
      (by simpa [fuzzyMatch] using hf)
    exact (fuzzyBeats_false_iff _ c r).mp (hnb.1 c hc)

/-- Witness for C4: the DOI rule decides against `storeC1` (overriding the
hash holder), and with an empty DOI the hash rule decides against
`storeA`. -/
theorem dedup_match_order_witness :
    dedupCheck reqX storeC1.documents = some docBd ∧
    dedupCheck reqA storeA.documents = some docA :=
  ⟨(dedup_match_order reqX storeC1.documents).1 "10.1000/b" docBd (by decide) (by decide),
    (dedup_match_order reqA storeA.documents).2.1 (fun nd h => Option.noConfusion h)
      docA (by decide)⟩

/-! ## The fuzzy threshold boundary (C5) -/

/-- C5: against a store holding a single active record of the same year,
with no DOI submitted and a distinct content hash, a submission whose
normalized-title similarity score is exactly 0.90 (`mkRat 9 10`) is
classified `duplicate` of that record, while a score of exactly 0.89
(`mkRat 89 100`) is classified as a distinct new document — the threshold is
inclusive at 0.90. -/
theorem fuzzy_boundary (req : RegisterRequest) (now : Nat) (s : Store) (r : DocRecord)
    (y : Int)
    (hdocs : s.documents = [r])
    (hv : registerValidate req = none)
    (hdoi : submittedDoi req = none)
    (hact : r.deleted_at = none)
    (hyr : r.year = some y) (hyq : req.year = some y)
    (hhash : r.content_hash ≠ req.content_hash) :
    (similarity (normalizeTitle req.title) r.title_normalized = mkRat 9 10 →
      (register req now s).1 = RegisterResult.duplicate r.document_id) ∧
    (similarity (normalizeTitle req.title) r.title_normalized = mkRat 89 100 →
      (register req now s).1 = RegisterResult.queued s.next_id ∧
      (register req now s).2.documents.length = s.documents.length + 1) := by
  have hpred : (r.deleted_at.isNone && r.content_hash == req.content_hash) = false := by
    simp [hact]
    exact hhash
  have h2 : findHashMatch req.content_hash [r] = none := by
    unfold findHashMatch
    exact (List.find?_cons_of_neg [] (by simp [hpred])).trans List.find?_nil
  have h3 : findCompositeMatch req.content_hash (normalizeTitle req.title) (some y) [r] =
      none := by
    unfold findCompositeMatch
    refine (List.find?_cons_of_neg [] ?_).trans List.find?_nil
    simp [hact]
    intro he
    exact absurd he hhash
  constructor
  · intro hsim
    have hcl : clearsThreshold (normalizeTitle req.title) r = true := by
      simp only [clearsThreshold, hsim]
      decide
    have hcand : fuzzyCandidates (normalizeTitle req.title) y [r] = [r] := by
      simp [fuzzyCandidates, hact, hyr, hcl]
    have hdc : dedupCheck req s.documents = some r := by
      rw [hdocs]
      simp [dedupCheck, hdoi, dedupRule234, h2, dedupRule34, hyq, h3, fuzzyMatch, hcand,
        pickBest]
    simp [register, hv, hdc, duplicateOutcome]
  · intro hsim
    have hcl : clearsThreshold (normalizeTitle req.title) r = false := by
      simp only [clearsThreshold, hsim]
      decide
    have hcand : fuzzyCandidates (normalizeTitle req.title) y [r] = [] := by
      simp [fuzzyCandidates, hcl]
    have hdc : dedupCheck req s.documents = none := by
      rw [hdocs]
      simp [dedupCheck, hdoi, dedupRule234, h2, dedupRule34, hyq, h3, fuzzyMatch, hcand,
        pickBest]
    have hfall : s.documents.find? (fun d => d.content_hash == req.content_hash) = none := by
      rw [hdocs]
      refine (List.find?_cons_of_neg [] ?_).trans List.find?_nil
      simp
      exact hhash
    constructor <;> simp [register, hv, hdc, hfall]

/-- Title of ten `a`s. -/
def reqT1 : RegisterRequest := { reqA with title := String.mk (List.replicate 10 'a') }

/-- The record `reqT1` creates: normalized title of ten `a`s, year 2024. -/
def docT1 : DocRecord := newRecord reqT1 1 0

/-- A same-year submission with a fresh hash whose title differs from
`docT1`'s in exactly one of ten characters: similarity 0.90. -/
def reqT2 : RegisterRequest :=
  { reqA with
      title := String.mk (List.replicate 9 'a' ++ ['b'])
      content_hash := hashB }

/-- Store holding only `docT1`. -/
def storeT : Store := { storeA with documents := [docT1] }

/-- Title of one hundred `a`s. -/
def reqU1 : RegisterRequest := { reqA with title := String.mk (List.replicate 100 'a') }

/-- The record `reqU1` creates. -/
def docU1 : DocRecord := newRecord reqU1 1 0

/-- A same-year submission with a fresh hash whose title differs from
`docU1`'s in 11 of 100 characters: similarity 0.89. -/
def reqU2 : RegisterRequest :=
  { reqA with
      title := String.mk (List.replicate 89 'a' ++ List.replicate 11 'b')
      content_hash := hashB }

/-- Store holding only `docU1`. -/
def storeU : Store := { storeA with documents := [docU1] }

set_option maxRecDepth 8000 in
/-- Witness for C5: a computed score of exactly 0.90 (one edit in ten
characters) yields `duplicate`; exactly 0.89 (eleven edits in a hundred
characters) yields a new `queued` document. -/
theorem fuzzy_boundary_witness :
    (register reqT2 3 storeT).1 = RegisterResult.duplicate docT1.document_id ∧
    ((register reqU2 3 storeU).1 = RegisterResult.queued storeU.next_id ∧
      (register reqU2 3 storeU).2.documents.length = storeU.documents.length + 1) :=
  ⟨(fuzzy_boundary reqT2 3 storeT docT1 2024 rfl (by decide) (by decide) (by decide)
      (by decide) (by decide) (by decide)).1 (by decide),
    (fuzzy_boundary reqU2 3 storeU docU1 2024 rfl (by decide) (by decide) (by decide)
      (by decide) (by decide) (by decide)).2 (by decide)⟩

end Heliograph
